import Mathlib

/-!
# Verification of the `@neatsuite/http` request-execution pipeline

Shallow embedding, in Lean 4, of the core utilities and client logic of the
NeatSuite HTTP library (`ResponseCache`, `RateLimiter`, `RequestBatcher`,
`retryWithBackoff`, `createCacheKey`, and the `NetSuiteClient` request path),
together with proofs and refutations of the specified behavioural properties.

Time is modelled as an explicit integer parameter (`Date.now()` in the source
is integer milliseconds); the mutable maps/arrays of the source become
association lists / lists threaded through explicit state passing.
-/

namespace NeatSuite

/-! ## JavaScript `Map` primitives

The source stores cache entries and batch results in a JS `Map`.  A `Map` is
modelled as an insertion-ordered association list with unique keys; `set`
overwrites in place, `get` returns the first (hence only) binding, `delete`
removes the key. -/

/-- `Map.get k`: the value bound to `k`, if present. -/
def mapGet {β : Type} (m : List (String × β)) (k : String) : Option β :=
  (m.find? (fun p => p.1 = k)).map (·.2)

/-- `Map.set k v`: overwrite the binding of `k` in place, or append it. -/
def mapSet {β : Type} (m : List (String × β)) (k : String) (v : β) :
    List (String × β) :=
  match m with
  | [] => [(k, v)]
  | (k', v') :: rest =>
      if k' = k then (k, v) :: rest else (k', v') :: mapSet rest k v

/-- `Map.delete k`: remove the binding of `k`. -/
def mapDelete {β : Type} (m : List (String × β)) (k : String) :
    List (String × β) :=
  m.filter (fun p => ¬ (p.1 = k))

/-! ## `ResponseCache`

```ts
get<T>(key) { const cached = this.cache.get(key);
  if (!cached) return null;
  if (Date.now() > cached.expiry) { this.cache.delete(key); return null; }
  return cached.data; }
set(key, data, ttl) { this.cache.set(key, { data, expiry: Date.now() + (ttl * 1000) }); }
```
`Date.now()` is passed in explicitly as `now` (integer milliseconds). -/

structure CacheEntry (V : Type) where
  data : V
  expiry : Int
deriving Repr, DecidableEq

structure ResponseCache (V : Type) where
  cache : List (String × CacheEntry V)
deriving Repr, DecidableEq

namespace ResponseCache

/-- `ResponseCache.get`, returning the result and the (possibly evicted)
new cache state. -/
def get {V : Type} (c : ResponseCache V) (now : Int) (key : String) :
    Option V × ResponseCache V :=
  match mapGet c.cache key with
  | none => (none, c)
  | some cached =>
      if now > cached.expiry then (none, ⟨mapDelete c.cache key⟩)
      else (some cached.data, c)

/-- `ResponseCache.set`. -/
def set {V : Type} (c : ResponseCache V) (now : Int) (key : String) (data : V)
    (ttl : Int) : ResponseCache V :=
  ⟨mapSet c.cache key ⟨data, now + ttl * 1000⟩⟩

end ResponseCache

/-! ## `RateLimiter`

```ts
canMakeRequest() { const now = Date.now();
  this.requests = this.requests.filter(time => now - time < this.windowMs);
  return this.requests.length < this.maxRequests; }
recordRequest() { this.requests.push(Date.now()); }
getTimeUntilNextRequest() { if (this.canMakeRequest()) return 0;
  const oldestRequest = Math.min(...this.requests);
  return Math.max(0, this.windowMs - (Date.now() - oldestRequest)); }
```
Timestamps are integers; the mutation of `this.requests` is returned as the
new state. -/

structure RateLimiter where
  requests : List Int
  maxRequests : Nat
  windowMs : Int
deriving Repr, DecidableEq

namespace RateLimiter

/-- The pruning pass of `canMakeRequest`: keep timestamps with
`now - time < windowMs`. -/
def prune (rl : RateLimiter) (now : Int) : RateLimiter :=
  { rl with requests := rl.requests.filter (fun time => now - time < rl.windowMs) }

/-- `RateLimiter.canMakeRequest`, returning the result together with the
pruned state. -/
def canMakeRequest (rl : RateLimiter) (now : Int) : Bool × RateLimiter :=
  let rl' := prune rl now
  (rl'.requests.length < rl.maxRequests, rl')

/-- `RateLimiter.recordRequest`. -/
def recordRequest (rl : RateLimiter) (now : Int) : RateLimiter :=
  { rl with requests := rl.requests ++ [now] }

/-- `Math.min(...xs)` over a list.  `Math.min()` of an empty spread is `+∞`;
that branch is unreachable in `getTimeUntilNextRequest` whenever
`maxRequests > 0`, and is modelled by the junk value `0`. -/
def jsMin (l : List Int) : Int :=
  match l.min? with
  | some m => m
  | none => 0

/-- `RateLimiter.getTimeUntilNextRequest`, returning the result together with
the state as mutated by the inner `canMakeRequest` call. -/
def getTimeUntilNextRequest (rl : RateLimiter) (now : Int) : Int × RateLimiter :=
  let res := canMakeRequest rl now
  if res.1 then (0, res.2)
  else (max 0 (rl.windowMs - (now - jsMin res.2.requests)), res.2)

end RateLimiter

/-! ## `retryWithBackoff`

```ts
const { maxRetries = 3, initialDelay = 1000, maxDelay = 30000, factor = 2, onRetry } = options;
let lastError;
for (let attempt = 0; attempt <= maxRetries; attempt++) {
  try { return await fn(); }
  catch (error) {
    lastError = error;
    if (attempt === maxRetries) throw error;
    if (onRetry) onRetry(attempt + 1, error);
    const delay = Math.min(initialDelay * Math.pow(factor, attempt), maxDelay);
    await new Promise(resolve => setTimeout(resolve, delay));
  }
}
```
The asynchronous operation `fn` is modelled as a function from the 0-based
attempt index to that attempt's outcome (`Except E A`); the run is recorded
as a trace: the final result, the number of invocations of `fn`, the
`onRetry` observer calls `(attemptNumber, error)` in order, and the delays
slept, in order. -/

structure RetryOptions where
  maxRetries : Nat := 3
  initialDelay : Nat := 1000
  maxDelay : Nat := 30000
  factor : Nat := 2
deriving Repr, DecidableEq

/-- `Math.min(initialDelay * Math.pow(factor, attempt), maxDelay)`. -/
def backoffDelay (opts : RetryOptions) (attempt : Nat) : Nat :=
  min (opts.initialDelay * opts.factor ^ attempt) opts.maxDelay

structure RetryTrace (E A : Type) where
  result : Except E A
  attempts : Nat
  onRetryCalls : List (Nat × E)
  delays : List Nat

/-- The loop body of `retryWithBackoff`: `attempt` is the current 0-based
attempt index, `remaining = maxRetries - attempt` the number of retries
still allowed (`remaining = 0` on the last attempt, where the failure is
re-raised). -/
def retryLoop {E A : Type} (fn : Nat → Except E A) (opts : RetryOptions) :
    Nat → Nat → RetryTrace E A
  | attempt, 0 =>
      match fn attempt with
      | .ok a => ⟨.ok a, 1, [], []⟩
      | .error e => ⟨.error e, 1, [], []⟩
  | attempt, remaining + 1 =>
      match fn attempt with
      | .ok a => ⟨.ok a, 1, [], []⟩
      | .error e =>
          let rest := retryLoop fn opts (attempt + 1) remaining
          ⟨rest.result, rest.attempts + 1, (attempt + 1, e) :: rest.onRetryCalls,
            backoffDelay opts attempt :: rest.delays⟩

/-- `retryWithBackoff fn opts`: run the loop from attempt 0 with
`maxRetries` retries remaining. -/
def retryWithBackoff {E A : Type} (fn : Nat → Except E A)
    (opts : RetryOptions) : RetryTrace E A :=
  retryLoop fn opts 0 opts.maxRetries

/-! ## `RequestBatcher.processBatch`

```ts
private async processBatch() {
  if (this.batchTimeout) { clearTimeout(this.batchTimeout); this.batchTimeout = undefined; }
  const currentBatch = this.batch.splice(0, this.batchSize);
  if (currentBatch.length === 0) return;
  const keys = currentBatch.map(item => item.key);
  try {
    const results = await this.batchProcessor(keys);
    currentBatch.forEach(({ key, resolve, reject }) => {
      const result = results.get(key);
      if (result !== undefined) resolve(result);
      else reject(new Error(`No result for key: ${key}`));
    });
  } catch (error) { currentBatch.forEach(({ reject }) => reject(error)); }
}
```
The pending queue is its FIFO list of keys (an entry's promise outcome is
recorded positionally next to its key).  The batch processor is a function
from the key list to either a failure `E` or the returned mapping, given as
its `Map.get` lookup `String → Option T` (`none` = `undefined`). -/

structure BatcherState where
  batch : List String
  timerActive : Bool
deriving Repr, DecidableEq

/-- The settlement of one batch entry's promise. -/
inductive BatchOutcome (E T : Type) where
  /-- `resolve(result)` was called with this value. -/
  | resolved (v : T)
  /-- `reject(new Error(msg))` with the "No result for key" message. -/
  | rejectedNoResult (msg : String)
  /-- `reject(error)` with the processor's failure. -/
  | rejectedError (e : E)
deriving Repr, DecidableEq

/-- `RequestBatcher.processBatch`: returns the new queue/timer state, the
list of key lists the batch processor was invoked with (so "exactly once"
is a provable statement), and the per-entry outcomes in queue order. -/
def processBatch {E T : Type} (st : BatcherState) (batchSize : Nat)
    (processor : List String → Except E (String → Option T)) :
    BatcherState × List (List String) × List (String × BatchOutcome E T) :=
  let st1 : BatcherState := { st with timerActive := false }
  let currentBatch := st1.batch.take batchSize
  let st2 : BatcherState := { st1 with batch := st1.batch.drop batchSize }
  if currentBatch.length = 0 then (st2, [], [])
  else
    let keys := currentBatch
    match processor keys with
    | .ok results =>
        (st2, [keys], currentBatch.map fun key =>
          (key, match results key with
            | some result => .resolved result
            | none => .rejectedNoResult ("No result for key: " ++ key)))
    | .error e =>
        (st2, [keys], currentBatch.map fun key => (key, .rejectedError e))

/-- The lookup `results.get(key)` when the processor's `Map<string, T>` may
bind a key to the value `undefined` itself: the mapping is an association
list of `String × Option T` (`(k, none)` = key present, bound to
`undefined`) and `get` flattens absence and `undefined` into `none`. -/
def jsMapGetU {T : Type} (m : List (String × Option T)) (k : String) :
    Option T :=
  match mapGet m k with
  | none => none
  | some v => v

/-! ## `createCacheKey`

```ts
const sortedParams = params ?
  Object.keys(params).sort().reduce((acc, key) => { acc[key] = params[key]; return acc; }, {}) : {};
return `${method}:${url}:${JSON.stringify(sortedParams)}`;
```
A params object is an insertion-ordered association list with unique keys
(`List (String × V)`); `Object.keys(...).sort()` is lexicographic string
sorting, and `JSON.stringify` of the rebuilt object serialises the
properties in insertion = sorted order, with a caller-supplied serialiser
for the values. -/

/-- `Object.keys(params)`. -/
def objKeys {V : Type} (o : List (String × V)) : List String := o.map (·.1)

/-- `Array.prototype.sort()` on strings: lexicographic sort. -/
def sortStrings (l : List String) : List String :=
  l.insertionSort (fun a b => a ≤ b)

/-- The `reduce` re-insertion: rebuild the object with its keys in sorted
order, each bound to `params[key]`. -/
def sortedParamsOf {V : Type} (o : List (String × V)) : List (String × V) :=
  (sortStrings (objKeys o)).filterMap (fun k => (mapGet o k).map (fun v => (k, v)))

/-- `JSON.stringify` of a flat object, given a serialiser for the values. -/
def stringifyObj {V : Type} (ser : V → String) (o : List (String × V)) :
    String :=
  "\x7b" ++ String.intercalate ","
    (o.map (fun p => "\"" ++ p.1 ++ "\":" ++ ser p.2)) ++ "\x7d"

/-- `createCacheKey(url, method, params?)`. -/
def createCacheKey {V : Type} (ser : V → String) (url method : String)
    (params : Option (List (String × V))) : String :=
  let sortedParams :=
    match params with
    | some p => sortedParamsOf p
    | none => []
  method ++ ":" ++ url ++ ":" ++ stringifyObj ser sortedParams

/-! ## `NetSuiteClient.request`: the transport call and status check

The axios instance is created with `validateStatus: (status) => status < 500`,
so the transport resolves (does not raise) exactly for statuses below 500
and raises the transport's own error (carrying the response) for 500+.
`makeRequest` then checks the resolved response:

```ts
const response = await this.executeMiddlewares(..., () => this.axiosInstance(requestConfig));
if (response.status !== 200) {
  throw new NetSuiteError(`NetSuite API returned status ${response.status}`,
    response.status, 'HTTP_ERROR', response.data, response);
}
return response;
```
The response body is an opaque string. -/

structure AxResponse where
  status : Nat
  data : String
deriving Repr, DecidableEq

/-- `validateStatus` passed to `axios.create`. -/
def validateStatus (status : Nat) : Bool := status < 500

/-- The typed error thrown by `makeRequest` (the fields of `NetSuiteError`
relevant to the claims). -/
structure NetSuiteErrorData where
  message : String
  status : Option Nat
  code : Option String
  details : Option String
  response : Option AxResponse
deriving Repr, DecidableEq

/-- Outcome of one `makeRequest` invocation given the transport's wire
response. -/
inductive MakeRequestOutcome where
  /-- The response is returned (request proceeds to build a `NetSuiteResponse`). -/
  | ok (r : AxResponse)
  /-- `makeRequest` throws a `NetSuiteError`. -/
  | nsError (e : NetSuiteErrorData)
  /-- The transport itself raised (status rejected by `validateStatus`);
  the transport error carries the response. -/
  | transportError (r : AxResponse)
deriving Repr, DecidableEq

/-- `makeRequest` applied to a transport attempt that got wire response `r`:
the transport raises unless `validateStatus r.status`; a resolved response
with status ≠ 200 is converted to `NetSuiteError(status, 'HTTP_ERROR',
response.data, response)`. -/
def makeRequest (r : AxResponse) : MakeRequestOutcome :=
  if validateStatus r.status then
    if r.status ≠ 200 then
      .nsError ⟨"NetSuite API returned status " ++ toString r.status,
        some r.status, some "HTTP_ERROR", some r.data, some r⟩
    else .ok r
  else .transportError r

/-! ## The Client Façade's retry policy

```ts
shouldRetry: (error) => {
  if (error.response?.status >= 400 && error.response?.status < 500) return false;
  return true;
}
```
A failure seen by the retry layer carries `error.response?.status`
(`none` for network errors and timeouts, which have no response). -/

/-- A failure as inspected by the façade's retry predicate: just its
`response?.status`. -/
structure RetryableError where
  responseStatus : Option Nat
deriving Repr, DecidableEq

/-- `retryOptions.shouldRetry` from `NetSuiteClient.request`. -/
def clientShouldRetry (error : RetryableError) : Bool :=
  match error.responseStatus with
  | some s => if 400 ≤ s ∧ s < 500 then false else true
  | none => true

/-- Modelled from the spec: the external retry collaborator (`p-retry`) that
`NetSuiteClient.request` invokes with `{retries, shouldRetry}` is not part of
this repository; per the spec's retry policy it runs the operation up to
`retries + 1` times, returns the first success, stops (re-raising the
failure) as soon as `shouldRetry` returns false for a failure, and otherwise
retries until attempts are exhausted.  Returns the result and the number of
invocations of `fn`. -/
def pRetryLoop {E A : Type} (fn : Nat → Except E A) (shouldRetry : E → Bool) :
    Nat → Nat → Except E A × Nat
  | attempt, 0 =>
      match fn attempt with
      | .ok a => (.ok a, 1)
      | .error e => (.error e, 1)
  | attempt, remaining + 1 =>
      match fn attempt with
      | .ok a => (.ok a, 1)
      | .error e =>
          if shouldRetry e then
            let rest := pRetryLoop fn shouldRetry (attempt + 1) remaining
            (rest.1, rest.2 + 1)
          else (.error e, 1)

/-- Modelled from the spec: `pRetry(fn, {retries, shouldRetry})`. -/
def pRetry {E A : Type} (fn : Nat → Except E A) (retries : Nat)
    (shouldRetry : E → Bool) : Except E A × Nat :=
  pRetryLoop fn shouldRetry 0 retries

/-! ## The middleware chain

```ts
public use(middleware) { this.middlewares.push(middleware); }

private async executeMiddlewares(context, index, finalHandler) {
  if (index >= this.middlewares.length) return finalHandler();
  const middleware = this.middlewares[index];
  return middleware(context, () => this.executeMiddlewares(context, index + 1, finalHandler));
}
```
Note that each recursive step reads `this.middlewares` — the live, mutable
array — afresh.  To observe this, middlewares are drawn from a small action
language: a middleware either just appends a tag to a shared observation log
and calls `next()`, or additionally calls `use(...)` to register a new
logging middleware before calling `next()`.  The terminal `finalHandler`
(the transport call) appends a distinguished tag `finalTag`.  Since a
middleware can grow the array, the recursion is run on explicit fuel; the
initial fuel `2 * length + 1` covers every reachable execution (each
original middleware registers at most one extra middleware, which itself
registers none). -/

inductive MWAction where
  /-- Append `tag` to the log, then call `next()`. -/
  | log (tag : Nat)
  /-- Append `selfTag` to the log, call `use(log newTag)`, then call
  `next()`. -/
  | registerLog (newTag selfTag : Nat)
deriving Repr, DecidableEq

structure ClientState where
  middlewares : List MWAction
  log : List Nat
deriving Repr, DecidableEq

/-- The pre-`next()` effect of a middleware on the client state. -/
def MWAction.effect : MWAction → ClientState → ClientState
  | .log tag, st => { st with log := st.log ++ [tag] }
  | .registerLog newTag selfTag, st =>
      { st with log := st.log ++ [selfTag],
                middlewares := st.middlewares ++ [.log newTag] }

/-- `executeMiddlewares(context, index, finalHandler)` on explicit fuel: at
each step the length test and the element access read the current
(possibly already-extended) middleware list, exactly as the source reads
`this.middlewares` afresh on every recursive call. -/
def executeMiddlewares (finalTag : Nat) : Nat → ClientState → Nat → ClientState
  | 0, st, _ => st
  | fuel + 1, st, index =>
      if h : index < st.middlewares.length then
        executeMiddlewares finalTag fuel
          ((st.middlewares.get ⟨index, h⟩).effect st) (index + 1)
      else
        { st with log := st.log ++ [finalTag] }

/-- One full request through the middleware chain, started at index 0. -/
def runRequest (finalTag : Nat) (st : ClientState) : ClientState :=
  executeMiddlewares finalTag (2 * st.middlewares.length + 1) st 0

/-! # Theorems -/

/-! ## `Map` helper lemmas -/

theorem mapGet_mapSet_self {β : Type} (m : List (String × β)) (k : String)
    (v : β) : mapGet (mapSet m k v) k = some v := by
  induction m with
  | nil => simp [mapGet, mapSet, List.find?]
  | cons hd tl ih =>
      by_cases h : hd.1 = k
      · simp only [mapSet]
        rw [if_pos h]
        simp [mapGet, List.find?]
      · simp only [mapSet]
        rw [if_neg h]
        simp only [mapGet, List.find?, h, decide_False]
        exact ih

theorem mapGet_mapDelete_self {β : Type} (m : List (String × β)) (k : String) :
    mapGet (mapDelete m k) k = none := by
  induction m with
  | nil => rfl
  | cons hd tl ih =>
      by_cases h : hd.1 = k
      · have hstep : mapDelete (hd :: tl) k = mapDelete tl k := by
          simp [mapDelete, h]
        rw [hstep]; exact ih
      · have hstep : mapDelete (hd :: tl) k = hd :: mapDelete tl k := by
          simp [mapDelete, h]
        rw [hstep]
        simp only [mapGet, List.find?, h, decide_False]
        exact ih

/-! ## C5: `ResponseCache` get/set and expiry

The claim says a `get` performed at or after `ttl` seconds have elapsed
returns absent.  The source tests `Date.now() > cached.expiry` with
`expiry = setTime + ttl * 1000`, a strict comparison: a `get` at exactly
`ttl` seconds after the `set` still returns the value.  The claim fails at
that boundary and holds with "strictly after" in place of "at or after". -/

/-- C5 counterexample: `set("k", 0, ttl = 1)` at time 0, then `get("k")` at
time 1000 — exactly `ttl` seconds later, so the claim requires absent — still
returns the cached value 0. -/
theorem cache_get_at_exact_ttl_counterexample :
    (1000 : Int) ≥ 0 + 1 * 1000 ∧
    ((ResponseCache.set (⟨[]⟩ : ResponseCache Nat) 0 "k" 0 1).get 1000 "k").1
      = some 0 := by
  constructor
  · decide
  · rfl

/-- C5 (amended): after `set k v ttl` at time `s`, a `get k` at any time
`g ≤ s + ttl * 1000` (i.e. at most `ttl` seconds later, the expiry instant
included) returns `v`; a `get k` at any time `g > s + ttl * 1000` (strictly
past the expiry instant) returns absent and removes `k` from the internal
storage.  In particular an entry is never returned strictly past its expiry
instant. -/
theorem cache_set_get_expiry {V : Type} (c : ResponseCache V) (s g ttl : Int)
    (k : String) (v : V) :
    (g ≤ s + ttl * 1000 →
      ((c.set s k v ttl).get g k).1 = some v) ∧
    (g > s + ttl * 1000 →
      ((c.set s k v ttl).get g k).1 = none ∧
      mapGet ((c.set s k v ttl).get g k).2.cache k = none) := by
  have hget : mapGet (c.set s k v ttl).cache k = some ⟨v, s + ttl * 1000⟩ :=
    mapGet_mapSet_self c.cache k ⟨v, s + ttl * 1000⟩
  constructor
  · intro hle
    have hnot : ¬ g > s + ttl * 1000 := not_lt.mpr hle
    simp [ResponseCache.get, hget, hnot]
  · intro hgt
    simp [ResponseCache.get, hget, hgt, mapGet_mapDelete_self]

/-- Witness for `cache_set_get_expiry` at concrete inputs. -/
theorem cache_set_get_expiry_witness :
    ((2000 : Int) ≤ 0 + 2 * 1000 ∧
      ((ResponseCache.set (⟨[]⟩ : ResponseCache Nat) 0 "a" 5 2).get 2000 "a").1
        = some 5) ∧
    ((2001 : Int) > 0 + 2 * 1000 ∧
      ((ResponseCache.set (⟨[]⟩ : ResponseCache Nat) 0 "a" 5 2).get 2001 "a").1
        = none) :=
  ⟨⟨by decide,
      (cache_set_get_expiry (⟨[]⟩ : ResponseCache Nat) 0 2000 2 "a" 5).1
        (by decide)⟩,
    ⟨by decide,
      ((cache_set_get_expiry (⟨[]⟩ : ResponseCache Nat) 0 2001 2 "a" 5).2
        (by decide)).1⟩⟩

/-! ## C8: `RateLimiter` -/

/-- C8: `canMakeRequest` prunes the timestamp list (every retained timestamp
satisfies `now - t < windowMs`, so none is older than the window) and
returns whether the retained count is strictly below `maxRequests`; with
`max = 3`, `window = 1000` and requests recorded at 0, 100, 200,
`canMakeRequest` is false at 500 and 999 and true again at 1000, once the
window has elapsed past the oldest timestamp; and `getTimeUntilNextRequest`
returns 0 whenever `canMakeRequest` is true, and otherwise returns
`windowMs` minus the age of the oldest retained timestamp. -/
theorem rateLimiter_spec (rl : RateLimiter) (now : Int)
    (hmax : 0 < rl.maxRequests) :
    ((rl.canMakeRequest now).2.requests
        = rl.requests.filter (fun time => now - time < rl.windowMs)
      ∧ (∀ t ∈ (rl.canMakeRequest now).2.requests, now - t < rl.windowMs)
      ∧ (rl.canMakeRequest now).1
          = decide ((rl.canMakeRequest now).2.requests.length < rl.maxRequests))
    ∧ ((rl.canMakeRequest now).1 = true →
        (rl.getTimeUntilNextRequest now).1 = 0)
    ∧ ((rl.canMakeRequest now).1 = false →
        ∃ m, (rl.canMakeRequest now).2.requests.min? = some m
          ∧ (rl.getTimeUntilNextRequest now).1 = rl.windowMs - (now - m))
    ∧ (((((RateLimiter.mk [] 3 1000).recordRequest 0).recordRequest 100).recordRequest 200).canMakeRequest 500).1 = false
    ∧ (((((RateLimiter.mk [] 3 1000).recordRequest 0).recordRequest 100).recordRequest 200).canMakeRequest 999).1 = false
    ∧ (((((RateLimiter.mk [] 3 1000).recordRequest 0).recordRequest 100).recordRequest 200).canMakeRequest 1000).1 = true := by
  refine ⟨⟨rfl, ?_, rfl⟩, ?_, ?_, by decide, by decide, by decide⟩
  · intro t ht
    have hmem : t ∈ rl.requests.filter (fun time => now - time < rl.windowMs) :=
      ht
    exact of_decide_eq_true (List.mem_filter.mp hmem).2
  · intro hcan
    simp [RateLimiter.getTimeUntilNextRequest, hcan]
  · intro hcan
    have hretained :
        (rl.canMakeRequest now).2.requests
          = rl.requests.filter (fun time => now - time < rl.windowMs) := rfl
    have hlen : rl.maxRequests ≤ (rl.canMakeRequest now).2.requests.length := by
      have : ¬ (rl.canMakeRequest now).2.requests.length < rl.maxRequests := by
        intro hlt
        have : (rl.canMakeRequest now).1 = true := decide_eq_true hlt
        rw [hcan] at this
        exact Bool.false_ne_true this
      omega
    have hne : (rl.canMakeRequest now).2.requests ≠ [] := by
      intro hnil
      rw [hnil] at hlen
      simp at hlen
      omega
    obtain ⟨m, hm⟩ : ∃ m, (rl.canMakeRequest now).2.requests.min? = some m := by
      cases hmq : (rl.canMakeRequest now).2.requests.min? with
      | none => exact absurd (List.min?_eq_none_iff.mp hmq) hne
      | some m => exact ⟨m, rfl⟩
    refine ⟨m, hm, ?_⟩
    have hmmem : m ∈ (rl.canMakeRequest now).2.requests :=
      List.min?_mem (fun a b => min_choice a b) hm
    have hage : now - m < rl.windowMs := by
      have := (List.mem_filter.mp (hretained ▸ hmmem)).2
      exact of_decide_eq_true this
    have hjs : RateLimiter.jsMin (rl.canMakeRequest now).2.requests = m := by
      simp [RateLimiter.jsMin, hm]
    have hpos : (0 : Int) ≤ rl.windowMs - (now - m) := by omega
    simp only [RateLimiter.getTimeUntilNextRequest, hcan, Bool.false_eq_true,
      if_false, hjs]
    exact max_eq_right hpos

/-- Witness for `rateLimiter_spec` at a concrete limiter. -/
theorem rateLimiter_spec_witness :
    0 < (RateLimiter.mk [0] 1 1000).maxRequests ∧
    ((RateLimiter.mk [0] 1 1000).canMakeRequest 500).1 = false ∧
    ∃ m, ((RateLimiter.mk [0] 1 1000).canMakeRequest 500).2.requests.min?
          = some m
      ∧ ((RateLimiter.mk [0] 1 1000).getTimeUntilNextRequest 500).1
          = (RateLimiter.mk [0] 1 1000).windowMs - (500 - m) :=
  ⟨by decide, by decide,
    (rateLimiter_spec (RateLimiter.mk [0] 1 1000) 500 (by decide)).2.2.1
      (by decide)⟩

/-! ## `retryLoop` helper lemmas -/

theorem retryLoop_attempts_le {E A : Type} (fn : Nat → Except E A)
    (opts : RetryOptions) (remaining : Nat) :
    ∀ attempt, (retryLoop fn opts attempt remaining).attempts ≤ remaining + 1 := by
  induction remaining with
  | zero =>
      intro attempt
      cases h : fn attempt <;> simp [retryLoop, h]
  | succ r ih =>
      intro attempt
      cases h : fn attempt with
      | ok a => simp [retryLoop, h]
      | error e =>
          simp only [retryLoop, h]
          have := ih (attempt + 1)
          omega

theorem retryLoop_all_fail {E A : Type} (fn : Nat → Except E A)
    (opts : RetryOptions) (es : Nat → E) (hfail : ∀ k, fn k = .error (es k))
    (remaining : Nat) :
    ∀ attempt, retryLoop fn opts attempt remaining =
      ⟨.error (es (attempt + remaining)), remaining + 1,
        (List.range remaining).map (fun i => (attempt + i + 1, es (attempt + i))),
        (List.range remaining).map (fun i => backoffDelay opts (attempt + i))⟩ := by
  induction remaining with
  | zero =>
      intro attempt
      simp [retryLoop, hfail attempt]
  | succ r ih =>
      intro attempt
      simp only [retryLoop, hfail attempt]
      rw [ih (attempt + 1)]
      simp only [RetryTrace.mk.injEq]
      refine ⟨?_, trivial, ?_, ?_⟩
      · have h1 : attempt + 1 + r = attempt + (r + 1) := by omega
        rw [h1]
      · rw [List.range_succ_eq_map, List.map_cons, List.map_map]
        refine congrArg (List.cons _) ?_
        refine List.map_congr_left ?_
        intro i _
        have h1 : attempt + 1 + i = attempt + (i + 1) := by omega
        simp [Function.comp, h1]
      · rw [List.range_succ_eq_map, List.map_cons, List.map_map]
        refine congrArg (List.cons _) ?_
        refine List.map_congr_left ?_
        intro i _
        have h1 : attempt + 1 + i = attempt + (i + 1) := by omega
        simp [Function.comp, h1]

theorem retryLoop_first_success {E A : Type} (fn : Nat → Except E A)
    (opts : RetryOptions) (es : Nat → E) (a : A) (j : Nat) :
    ∀ attempt remaining, j ≤ remaining →
      (∀ i, i < j → fn (attempt + i) = .error (es (attempt + i))) →
      fn (attempt + j) = .ok a →
      retryLoop fn opts attempt remaining =
        ⟨.ok a, j + 1,
          (List.range j).map (fun i => (attempt + i + 1, es (attempt + i))),
          (List.range j).map (fun i => backoffDelay opts (attempt + i))⟩ := by
  induction j with
  | zero =>
      intro attempt remaining _ _ hsucc
      rw [Nat.add_zero] at hsucc
      cases remaining <;> simp [retryLoop, hsucc]
  | succ n ih =>
      intro attempt remaining hle hfail hsucc
      obtain ⟨r, rfl⟩ : ∃ r, remaining = r + 1 :=
        ⟨remaining - 1, by omega⟩
      have h0 : fn attempt = .error (es attempt) := by
        have := hfail 0 (by omega)
        simpa using this
      simp only [retryLoop, h0]
      rw [ih (attempt + 1) r (by omega)
        (fun i hi => by
          have hf := hfail (i + 1) (by omega)
          have harr : attempt + (i + 1) = attempt + 1 + i := by omega
          rw [harr] at hf
          exact hf)
        (by
          have harr : attempt + (n + 1) = attempt + 1 + n := by omega
          rw [harr] at hsucc
          exact hsucc)]
      simp only [RetryTrace.mk.injEq]
      refine ⟨trivial, trivial, ?_, ?_⟩
      · rw [List.range_succ_eq_map, List.map_cons, List.map_map]
        refine congrArg (List.cons _) ?_
        refine List.map_congr_left ?_
        intro i _
        have h1 : attempt + 1 + i = attempt + (i + 1) := by omega
        simp [Function.comp, h1]
      · rw [List.range_succ_eq_map, List.map_cons, List.map_map]
        refine congrArg (List.cons _) ?_
        refine List.map_congr_left ?_
        intro i _
        have h1 : attempt + 1 + i = attempt + (i + 1) := by omega
        simp [Function.comp, h1]

theorem retryLoop_delays {E A : Type} (fn : Nat → Except E A)
    (opts : RetryOptions) (remaining : Nat) :
    ∀ attempt i, i < (retryLoop fn opts attempt remaining).delays.length →
      (retryLoop fn opts attempt remaining).delays[i]?
        = some (backoffDelay opts (attempt + i)) := by
  induction remaining with
  | zero =>
      intro attempt i h
      exfalso
      cases hfn : fn attempt <;> simp [retryLoop, hfn] at h
  | succ r ih =>
      intro attempt i h
      cases hfn : fn attempt with
      | ok a => simp [retryLoop, hfn] at h
      | error e =>
          simp only [retryLoop, hfn] at h ⊢
          cases i with
          | zero => simp
          | succ n =>
              simp only [List.length_cons, Nat.add_lt_add_iff_right] at h
              simp only [List.getElem?_cons_succ]
              rw [ih (attempt + 1) n h]
              have harr : attempt + 1 + n = attempt + (n + 1) := by omega
              rw [harr]

/-! ## C2: `retryWithBackoff` attempt counting and observer calls -/

/-- C2: `retryWithBackoff` invokes the operation at most `maxRetries + 1`
times; if the first success is at attempt `j ≤ maxRetries` (0-based) the
success is returned after exactly `j + 1` invocations, with the observer
invoked exactly once per failed non-final attempt, with attempt numbers
`1, ..., j`; if every attempt fails, the failure of the last attempt
(attempt `maxRetries`) is re-raised after exactly `maxRetries + 1`
invocations with observer calls numbered `1, ..., maxRetries`; and
`maxRetries = 0` means exactly one attempt. -/
theorem retryWithBackoff_spec {E A : Type} (fn : Nat → Except E A)
    (opts : RetryOptions) :
    (retryWithBackoff fn opts).attempts ≤ opts.maxRetries + 1
    ∧ (∀ (es : Nat → E) (j : Nat) (a : A), j ≤ opts.maxRetries →
        (∀ i, i < j → fn i = Except.error (es i)) → fn j = Except.ok a →
        retryWithBackoff fn opts =
          ⟨Except.ok a, j + 1,
            (List.range j).map (fun i => (i + 1, es i)),
            (List.range j).map (fun i => backoffDelay opts i)⟩)
    ∧ (∀ es : Nat → E, (∀ k, fn k = Except.error (es k)) →
        retryWithBackoff fn opts =
          ⟨Except.error (es opts.maxRetries), opts.maxRetries + 1,
            (List.range opts.maxRetries).map (fun i => (i + 1, es i)),
            (List.range opts.maxRetries).map (fun i => backoffDelay opts i)⟩)
    ∧ (opts.maxRetries = 0 → (retryWithBackoff fn opts).attempts = 1) := by
  refine ⟨retryLoop_attempts_le fn opts opts.maxRetries 0, ?_, ?_, ?_⟩
  · intro es j a hj hfail hsucc
    have h := retryLoop_first_success fn opts es a j 0 opts.maxRetries hj
      (fun i hi => by simpa using hfail i hi) (by simpa using hsucc)
    simpa [retryWithBackoff] using h
  · intro es hfail
    have h := retryLoop_all_fail fn opts es hfail opts.maxRetries 0
    simpa [retryWithBackoff] using h
  · intro h0
    unfold retryWithBackoff
    rw [h0]
    cases hfn : fn 0 <;> simp [retryLoop, hfn]

/-- Witness for `retryWithBackoff_spec`: an operation failing on its first
two attempts and succeeding on the third, with `maxRetries = 3`, returns the
success after 3 invocations and the observer is called exactly twice, with
attempt numbers 1 and 2. -/
theorem retryWithBackoff_spec_witness :
    (2 ≤ (RetryOptions.mk 3 1000 30000 2).maxRetries
      ∧ (∀ i, i < 2 →
          (fun k => if k < 2 then (Except.error k : Except Nat Nat)
            else Except.ok 42) i = Except.error i)
      ∧ (fun k => if k < 2 then (Except.error k : Except Nat Nat)
          else Except.ok 42) 2 = Except.ok 42)
    ∧ retryWithBackoff
        (fun k => if k < 2 then (Except.error k : Except Nat Nat)
          else Except.ok 42) (RetryOptions.mk 3 1000 30000 2)
        = ⟨Except.ok 42, 3, [(1, 0), (2, 1)], [1000, 2000]⟩ :=
  ⟨⟨by decide, by intro i hi; interval_cases i <;> rfl, rfl⟩,
    (retryWithBackoff_spec
        (fun k => if k < 2 then (Except.error k : Except Nat Nat)
          else Except.ok 42) (RetryOptions.mk 3 1000 30000 2)).2.1
      (fun i => i) 2 42 (by decide)
      (by intro i hi; interval_cases i <;> rfl) rfl⟩

/-! ## C7: the backoff delay formula -/

/-- C7: the delay slept before the retry that follows failed attempt `k`
(0-based; position `k` in the trace's delay list) is
`min(initialDelay * factor ^ k, maxDelay)`, and the defaults are
`maxRetries = 3`, `initialDelay = 1000`, `maxDelay = 30000`, `factor = 2`. -/
theorem retry_delay_formula {E A : Type} (fn : Nat → Except E A)
    (opts : RetryOptions) (k : Nat)
    (hk : k < (retryWithBackoff fn opts).delays.length) :
    (retryWithBackoff fn opts).delays[k]?
        = some (min (opts.initialDelay * opts.factor ^ k) opts.maxDelay)
    ∧ ({} : RetryOptions).maxRetries = 3
    ∧ ({} : RetryOptions).initialDelay = 1000
    ∧ ({} : RetryOptions).maxDelay = 30000
    ∧ ({} : RetryOptions).factor = 2 := by
  refine ⟨?_, rfl, rfl, rfl, rfl⟩
  have h := retryLoop_delays fn opts opts.maxRetries 0 k hk
  simpa [retryWithBackoff, backoffDelay] using h

/-- Witness for `retry_delay_formula` on an always-failing operation under
the default options. -/
theorem retry_delay_formula_witness :
    1 < (retryWithBackoff (fun k => (Except.error k : Except Nat Nat))
          {}).delays.length
    ∧ (retryWithBackoff (fun k => (Except.error k : Except Nat Nat))
          {}).delays[1]?
        = some (min (({} : RetryOptions).initialDelay
            * ({} : RetryOptions).factor ^ 1) ({} : RetryOptions).maxDelay) :=
  ⟨by decide,
    (retry_delay_formula (fun k => (Except.error k : Except Nat Nat)) {} 1
      (by decide)).1⟩

/-! ## `processBatch` reduction lemmas -/

theorem processBatch_empty {E T : Type} (st : BatcherState) (batchSize : Nat)
    (processor : List String → Except E (String → Option T))
    (hnil : st.batch.take batchSize = []) :
    processBatch st batchSize processor
      = ({ batch := st.batch.drop batchSize, timerActive := false }, [], []) := by
  simp [processBatch, hnil]

theorem processBatch_ok {E T : Type} (st : BatcherState) (batchSize : Nat)
    (processor : List String → Except E (String → Option T))
    (results : String → Option T) (hne : st.batch.take batchSize ≠ [])
    (hproc : processor (st.batch.take batchSize) = .ok results) :
    processBatch st batchSize processor
      = ({ batch := st.batch.drop batchSize, timerActive := false },
          [st.batch.take batchSize],
          (st.batch.take batchSize).map fun key =>
            (key, match results key with
              | some result => BatchOutcome.resolved result
              | none =>
                  BatchOutcome.rejectedNoResult ("No result for key: " ++ key))) := by
  have hlen : ¬ (st.batch.take batchSize).length = 0 := by
    simpa [List.length_eq_zero] using hne
  have hcond : ¬ (batchSize = 0 ∨ st.batch = []) := by
    intro h
    apply hne
    rcases h with h | h <;> simp [h]
  simp [processBatch, hlen, hcond, hproc]

theorem processBatch_error {E T : Type} (st : BatcherState) (batchSize : Nat)
    (processor : List String → Except E (String → Option T)) (e : E)
    (hne : st.batch.take batchSize ≠ [])
    (hproc : processor (st.batch.take batchSize) = .error e) :
    processBatch st batchSize processor
      = ({ batch := st.batch.drop batchSize, timerActive := false },
          [st.batch.take batchSize],
          (st.batch.take batchSize).map fun key =>
            (key, BatchOutcome.rejectedError e)) := by
  have hlen : ¬ (st.batch.take batchSize).length = 0 := by
    simpa [List.length_eq_zero] using hne
  have hcond : ¬ (batchSize = 0 ∨ st.batch = []) := by
    intro h
    apply hne
    rcases h with h | h <;> simp [h]
  simp [processBatch, hlen, hcond, hproc]

/-! ## C6: `RequestBatcher.processBatch` -/

/-- C6: a flush removes exactly the prefix of the pending queue of size
`min(queue length, batchSize)`, clears the pending timer, invokes the batch
processor exactly once with the collected keys in FIFO order (and not at all
when the queue is empty), produces one outcome per removed entry, in order;
an entry whose key the returned mapping sends to a defined value is resolved
with that value, an entry whose key it does not is rejected with the
"No result for key" failure, each independently of its siblings; and if the
processor call raises, every entry of the flush is rejected with that same
failure. -/
theorem processBatch_spec {E T : Type} (st : BatcherState) (batchSize : Nat)
    (processor : List String → Except E (String → Option T)) :
    (processBatch st batchSize processor).1.batch = st.batch.drop batchSize
    ∧ (processBatch st batchSize processor).1.timerActive = false
    ∧ (st.batch.take batchSize).length = min st.batch.length batchSize
    ∧ (processBatch st batchSize processor).2.1
        = (if st.batch.take batchSize = [] then []
            else [st.batch.take batchSize])
    ∧ ((processBatch st batchSize processor).2.2).map Prod.fst
        = st.batch.take batchSize
    ∧ (∀ results, processor (st.batch.take batchSize) = .ok results →
        ∀ k o, (k, o) ∈ (processBatch st batchSize processor).2.2 →
          (∀ v, results k = some v → o = .resolved v)
          ∧ (results k = none →
              o = .rejectedNoResult ("No result for key: " ++ k)))
    ∧ (∀ e, processor (st.batch.take batchSize) = .error e →
        ∀ k o, (k, o) ∈ (processBatch st batchSize processor).2.2 →
          o = .rejectedError e) := by
  have hmin : (st.batch.take batchSize).length = min st.batch.length batchSize := by
    rw [List.length_take, Nat.min_comm]
  by_cases hnil : st.batch.take batchSize = []
  · rw [processBatch_empty st batchSize processor hnil]
    refine ⟨rfl, rfl, hmin, by simp [hnil], by simp [hnil], ?_, ?_⟩
    · intro results _ k o hmem
      simp at hmem
    · intro e _ k o hmem
      simp at hmem
  · cases hproc : processor (st.batch.take batchSize) with
    | ok results =>
        rw [processBatch_ok st batchSize processor results hnil hproc]
        refine ⟨rfl, rfl, hmin, by simp [hnil], ?_, ?_, ?_⟩
        · simp [List.map_map, Function.comp_def]
        · intro results2 hres k o hmem
          have h2 : results = results2 := Except.ok.inj hres
          subst h2
          obtain ⟨key, hkey, heq⟩ := List.mem_map.mp hmem
          rw [Prod.mk.injEq] at heq
          obtain ⟨hk, ho⟩ := heq
          subst hk
          constructor
          · intro v hv
            rw [← ho, hv]
          · intro hv
            rw [← ho, hv]
        · intro e he
          exact Except.noConfusion he
    | error e =>
        rw [processBatch_error st batchSize processor e hnil hproc]
        refine ⟨rfl, rfl, hmin, by simp [hnil], ?_, ?_, ?_⟩
        · simp [List.map_map, Function.comp_def]
        · intro results hres
          exact Except.noConfusion hres
        · intro e2 he k o hmem
          have h2 : e = e2 := Except.error.inj he
          subst h2
          obtain ⟨key, hkey, heq⟩ := List.mem_map.mp hmem
          rw [Prod.mk.injEq] at heq
          obtain ⟨hk, ho⟩ := heq
          exact ho.symm

/-- Witness for `processBatch_spec`: a queue `["a", "b", "c"]` flushed with
`batchSize = 2` and a processor mapping only `"a"`: entry `"b"` is rejected
with the "No result for key" failure. -/
theorem processBatch_spec_witness :
    (fun _ => Except.ok (fun key => if key = "a" then some (1 : Nat) else none)
        : List String → Except Unit (String → Option Nat))
        (List.take 2 ["a", "b", "c"])
      = Except.ok (fun key => if key = "a" then some (1 : Nat) else none)
    ∧ ("b", BatchOutcome.rejectedNoResult ("No result for key: " ++ "b"))
        ∈ (@processBatch Unit Nat ⟨["a", "b", "c"], true⟩ 2
            (fun _ => Except.ok
              (fun key => if key = "a" then some (1 : Nat) else none))).2.2
    ∧ ((fun key => if key = "a" then some (1 : Nat) else none) "b" = none →
        (BatchOutcome.rejectedNoResult ("No result for key: " ++ "b")
            : BatchOutcome Unit Nat)
          = BatchOutcome.rejectedNoResult ("No result for key: " ++ "b")) :=
  ⟨rfl, by decide,
    ((@processBatch_spec Unit Nat ⟨["a", "b", "c"], true⟩ 2
        (fun _ => Except.ok
          (fun key => if key = "a" then some (1 : Nat) else none))).2.2.2.2.2.1
      (fun key => if key = "a" then some (1 : Nat) else none) rfl
      "b" (BatchOutcome.rejectedNoResult ("No result for key: " ++ "b"))
      (by decide)).2⟩

/-! ## C9: a key bound to `undefined` in the processor's mapping -/

theorem jsMapGetU_cons_eq {T : Type} {k k' : String} (v : Option T)
    (rest : List (String × Option T)) (hk : k' = k) :
    jsMapGetU ((k', v) :: rest) k = v := by
  cases v <;> simp [jsMapGetU, mapGet, List.find?, hk]

theorem jsMapGetU_cons_ne {T : Type} {k k' : String} (v : Option T)
    (rest : List (String × Option T)) (hk : ¬ k' = k) :
    jsMapGetU ((k', v) :: rest) k = jsMapGetU rest k := by
  simp [jsMapGetU, mapGet, List.find?, hk]

/-- C9: in a flush, presence of a key in the processor's returned mapping is
tested by whether `results.get(key)` is `undefined`, not by map membership —
a key present in the mapping but bound to the value `undefined` looks up as
`none` exactly like an absent key, and the corresponding entry is rejected
with the same "No result for key" failure. -/
theorem processBatch_undefined_value {T : Type}
    (m : List (String × Option T)) (k : String) (st : BatcherState)
    (batchSize : Nat) :
    ((k, none) ∈ m → (m.map Prod.fst).Nodup → jsMapGetU m k = none)
    ∧ (jsMapGetU m k = none →
        ∀ o, (k, o) ∈ (@processBatch Unit T st batchSize
            (fun _ => Except.ok (jsMapGetU m))).2.2 →
          o = BatchOutcome.rejectedNoResult ("No result for key: " ++ k)) := by
  constructor
  · induction m with
    | nil =>
        intro hmem _
        exact absurd hmem (List.not_mem_nil _)
    | cons hd rest ih =>
        intro hmem hnodup
        obtain ⟨k', v'⟩ := hd
        have hnodup' : ((k', v') :: rest).map Prod.fst
            = k' :: rest.map Prod.fst := rfl
        rw [hnodup'] at hnodup
        obtain ⟨hnotin, htail⟩ := List.nodup_cons.mp hnodup
        by_cases hk : k' = k
        · rcases List.mem_cons.mp hmem with heq | hrest
          · rw [Prod.mk.injEq] at heq
            rw [jsMapGetU_cons_eq v' rest hk, ← heq.2]
          · exfalso
            apply hnotin
            rw [hk]
            exact List.mem_map.mpr ⟨(k, none), hrest, rfl⟩
        · have hrest : (k, none) ∈ rest := by
            rcases List.mem_cons.mp hmem with heq | hr
            · exact absurd (congrArg Prod.fst heq.symm) hk
            · exact hr
          rw [jsMapGetU_cons_ne v' rest hk]
          exact ih hrest htail
  · intro hnone o hmem
    by_cases hnil : st.batch.take batchSize = []
    · rw [processBatch_empty st batchSize _ hnil] at hmem
      exact absurd hmem (List.not_mem_nil _)
    · rw [processBatch_ok st batchSize _ (jsMapGetU m) hnil rfl] at hmem
      obtain ⟨key, hkey, heq⟩ := List.mem_map.mp hmem
      rw [Prod.mk.injEq] at heq
      obtain ⟨hk, ho⟩ := heq
      subst hk
      rw [← ho, hnone]

/-- Witness for `processBatch_undefined_value`: the mapping `{"x" ↦
undefined}` contains the queued key `"x"` yet the entry is rejected with
"No result for key: x". -/
theorem processBatch_undefined_value_witness :
    (("x", (none : Option Nat)) ∈ [("x", (none : Option Nat))]
      ∧ (([("x", (none : Option Nat))]).map Prod.fst).Nodup)
    ∧ jsMapGetU [("x", (none : Option Nat))] "x" = none
    ∧ (("x", BatchOutcome.rejectedNoResult ("No result for key: " ++ "x"))
        ∈ (@processBatch Unit Nat ⟨["x"], false⟩ 1
            (fun _ => Except.ok (jsMapGetU [("x", (none : Option Nat))]))).2.2)
    ∧ BatchOutcome.rejectedNoResult ("No result for key: " ++ "x")
        = (BatchOutcome.rejectedNoResult ("No result for key: " ++ "x")
            : BatchOutcome Unit Nat) :=
  ⟨⟨by decide, by decide⟩,
    (processBatch_undefined_value [("x", none)] "x" ⟨["x"], false⟩ 1).1
      (by decide) (by decide),
    by decide,
    (processBatch_undefined_value [("x", none)] "x" ⟨["x"], false⟩ 1).2
      (by decide)
      (BatchOutcome.rejectedNoResult ("No result for key: " ++ "x"))
      (by decide)⟩

/-! ## C1: the status check in `NetSuiteClient.request`

The claim says every 2xx response yields a `ClientResponse` and every
non-2xx response (not already raised) a `NetSuiteError`.  The source checks
`response.status !== 200`: a 201 (or 204) response, which `validateStatus`
lets through without raising, is converted into the typed error as well. -/

/-- C1 counterexample: a transport response with the 2xx status 201 is not
raised by the transport (`validateStatus 201 = true`), yet `makeRequest`
throws the typed `NetSuiteError` instead of returning the response. -/
theorem request_2xx_counterexample :
    validateStatus 201 = true
    ∧ makeRequest ⟨201, "body"⟩
        = MakeRequestOutcome.nsError
            ⟨"NetSuite API returned status 201", some 201, some "HTTP_ERROR",
              some "body", some ⟨201, "body"⟩⟩
    ∧ makeRequest ⟨201, "body"⟩ ≠ MakeRequestOutcome.ok ⟨201, "body"⟩ :=
  ⟨by decide, by decide, by decide⟩

/-- C1 (amended): a transport response with status below 500 (which the
transport resolves rather than raises) and different from 200 makes the
request raise `NetSuiteError` carrying that status, the generic code
`HTTP_ERROR`, and the raw response body as details; a response with status
exactly 200 (not the whole 2xx range) is returned; a status of 500 or above
is raised by the transport itself. -/
theorem makeRequest_status_check (r : AxResponse) :
    (r.status < 500 → r.status ≠ 200 →
      makeRequest r = MakeRequestOutcome.nsError
        ⟨"NetSuite API returned status " ++ toString r.status, some r.status,
          some "HTTP_ERROR", some r.data, some r⟩)
    ∧ (r.status = 200 → makeRequest r = MakeRequestOutcome.ok r)
    ∧ (500 ≤ r.status → makeRequest r = MakeRequestOutcome.transportError r) := by
  refine ⟨?_, ?_, ?_⟩
  · intro h5 h200
    simp [makeRequest, validateStatus, h5, h200]
  · intro h200
    simp [makeRequest, validateStatus, h200]
  · intro h5
    have hnot : ¬ r.status < 500 := by omega
    simp [makeRequest, validateStatus, hnot]

/-- Witness for `makeRequest_status_check` at statuses 404, 200 and 503. -/
theorem makeRequest_status_check_witness :
    ((404 : Nat) < 500 ∧ (404 : Nat) ≠ 200
      ∧ makeRequest ⟨404, "nf"⟩ = MakeRequestOutcome.nsError
          ⟨"NetSuite API returned status " ++ toString (404 : Nat), some 404,
            some "HTTP_ERROR", some "nf", some ⟨404, "nf"⟩⟩)
    ∧ makeRequest ⟨200, "okbody"⟩ = MakeRequestOutcome.ok ⟨200, "okbody"⟩
    ∧ ((500 : Nat) ≤ 503
      ∧ makeRequest ⟨503, "sv"⟩ = MakeRequestOutcome.transportError ⟨503, "sv"⟩) :=
  ⟨⟨by decide, by decide,
      (makeRequest_status_check ⟨404, "nf"⟩).1 (by decide) (by decide)⟩,
    (makeRequest_status_check ⟨200, "okbody"⟩).2.1 rfl,
    ⟨by decide, (makeRequest_status_check ⟨503, "sv"⟩).2.2 (by decide)⟩⟩

/-! ## C3: the Client Façade's retry policy -/

theorem pRetryLoop_all_retryable {E A : Type} (fn : Nat → Except E A)
    (sr : E → Bool) (es : Nat → E) (hfail : ∀ k, fn k = .error (es k))
    (hsr : ∀ k, sr (es k) = true) (remaining : Nat) :
    ∀ attempt, pRetryLoop fn sr attempt remaining
      = (.error (es (attempt + remaining)), remaining + 1) := by
  induction remaining with
  | zero =>
      intro attempt
      simp [pRetryLoop, hfail attempt]
  | succ r ih =>
      intro attempt
      simp only [pRetryLoop, hfail attempt, hsr attempt, if_true]
      rw [ih (attempt + 1)]
      have harr : attempt + 1 + r = attempt + (r + 1) := by omega
      simp [harr]

/-- C3: under the façade's `shouldRetry`, a failure whose `response?.status`
is in the 4xx range is never retried — the operation is attempted exactly
once — while failures that `shouldRetry` accepts (carrying a 5xx status, or
carrying no response at all, as for network errors and timeouts) are retried
up to the configured limit, `retries + 1` attempts in all.  In particular
`shouldRetry` rejects 404 and accepts 503 and response-less failures. -/
theorem clientRetryPolicy_spec {A : Type} (fn : Nat → Except RetryableError A)
    (retries : Nat) :
    (∀ e s, fn 0 = .error e → e.responseStatus = some s → 400 ≤ s → s < 500 →
      pRetry fn retries clientShouldRetry = (.error e, 1))
    ∧ (∀ es : Nat → RetryableError, (∀ k, fn k = .error (es k)) →
        (∀ k, clientShouldRetry (es k) = true) →
        pRetry fn retries clientShouldRetry = (.error (es retries), retries + 1))
    ∧ clientShouldRetry ⟨some 404⟩ = false
    ∧ clientShouldRetry ⟨some 503⟩ = true
    ∧ clientShouldRetry ⟨none⟩ = true := by
  refine ⟨?_, ?_, by decide, by decide, by decide⟩
  · intro e s h0 hs h4 h5
    have hsr : clientShouldRetry e = false := by
      simp [clientShouldRetry, hs, h4, h5]
    cases retries with
    | zero => simp [pRetry, pRetryLoop, h0]
    | succ r => simp [pRetry, pRetryLoop, h0, hsr]
  · intro es hfail hsr
    have h := pRetryLoop_all_retryable fn clientShouldRetry es hfail hsr
      retries 0
    simpa [pRetry] using h

/-- Witness for `clientRetryPolicy_spec`: an operation always failing with
status 404 is attempted once; one always failing with status 503 is
attempted `3 + 1` times under `retries = 3`. -/
theorem clientRetryPolicy_spec_witness :
    pRetry (fun _ => (Except.error ⟨some 404⟩ : Except RetryableError Nat)) 3
        clientShouldRetry
      = (Except.error ⟨some 404⟩, 1)
    ∧ pRetry (fun _ => (Except.error ⟨some 503⟩ : Except RetryableError Nat)) 3
        clientShouldRetry
      = (Except.error ⟨some 503⟩, 3 + 1) :=
  ⟨(clientRetryPolicy_spec
        (fun _ => (Except.error ⟨some 404⟩ : Except RetryableError Nat)) 3).1
      ⟨some 404⟩ 404 rfl rfl (by decide) (by decide),
    (clientRetryPolicy_spec
        (fun _ => (Except.error ⟨some 503⟩ : Except RetryableError Nat)) 3).2.1
      (fun _ => ⟨some 503⟩) (fun _ => rfl) (fun _ => rfl)⟩

/-! ## C10: `createCacheKey` is insensitive to key enumeration order -/

theorem mapGet_cons_eq {β : Type} {k k' : String} (v : β)
    (rest : List (String × β)) (hk : k' = k) :
    mapGet ((k', v) :: rest) k = some v := by
  simp [mapGet, List.find?, hk]

theorem mapGet_cons_ne {β : Type} {k k' : String} (v : β)
    (rest : List (String × β)) (hk : ¬ k' = k) :
    mapGet ((k', v) :: rest) k = mapGet rest k := by
  simp [mapGet, List.find?, hk]

theorem sortStrings_eq_of_perm {l₁ l₂ : List String} (h : l₁.Perm l₂) :
    sortStrings l₁ = sortStrings l₂ := by
  haveI : IsAntisymm String (fun a b : String => a ≤ b) :=
    ⟨fun _ _ h1 h2 => le_antisymm h1 h2⟩
  exact List.eq_of_perm_of_sorted
    (((List.perm_insertionSort _ l₁).trans h).trans
      (List.perm_insertionSort _ l₂).symm)
    (List.sorted_insertionSort _ l₁)
    (List.sorted_insertionSort _ l₂)

theorem mapGet_perm {β : Type} {m₁ m₂ : List (String × β)} (h : m₁.Perm m₂) :
    ∀ k, (m₁.map Prod.fst).Nodup → mapGet m₁ k = mapGet m₂ k := by
  induction h with
  | nil =>
      intro k _
      rfl
  | cons x h ih =>
      intro k hnodup
      obtain ⟨kx, vx⟩ := x
      simp only [List.map_cons, List.nodup_cons] at hnodup
      by_cases hk : kx = k
      · rw [mapGet_cons_eq vx _ hk, mapGet_cons_eq vx _ hk]
      · rw [mapGet_cons_ne vx _ hk, mapGet_cons_ne vx _ hk]
        exact ih k hnodup.2
  | swap x y l =>
      intro k hnodup
      obtain ⟨kx, vx⟩ := x
      obtain ⟨ky, vy⟩ := y
      simp only [List.map_cons, List.nodup_cons, List.mem_cons] at hnodup
      have hxy : ¬ ky = kx := fun hh => hnodup.1 (Or.inl hh)
      by_cases hky : ky = k
      · have hkx : ¬ kx = k := fun hh => hxy (hky.trans hh.symm)
        rw [mapGet_cons_eq vy _ hky, mapGet_cons_ne vx _ hkx,
          mapGet_cons_eq vy _ hky]
      · by_cases hkx : kx = k
        · rw [mapGet_cons_ne vy _ hky, mapGet_cons_eq vx _ hkx,
            mapGet_cons_eq vx _ hkx]
        · rw [mapGet_cons_ne vy _ hky, mapGet_cons_ne vx _ hkx,
            mapGet_cons_ne vx _ hkx, mapGet_cons_ne vy _ hky]
  | trans h₁ h₂ ih₁ ih₂ =>
      intro k hnodup
      rw [ih₁ k hnodup]
      exact ih₂ k (((h₁.map Prod.fst).nodup_iff).mp hnodup)

theorem sortedParamsOf_eq_of_perm {V : Type} {p₁ p₂ : List (String × V)}
    (h : p₁.Perm p₂) (hnodup : (p₁.map Prod.fst).Nodup) :
    sortedParamsOf p₁ = sortedParamsOf p₂ := by
  unfold sortedParamsOf
  have hkeys : sortStrings (objKeys p₁) = sortStrings (objKeys p₂) :=
    sortStrings_eq_of_perm (h.map Prod.fst)
  rw [hkeys]
  have hfun : (fun k => (mapGet p₁ k).map (fun v => (k, v)))
      = (fun k => (mapGet p₂ k).map (fun v => (k, v))) := by
    funext k
    rw [mapGet_perm h k hnodup]
  rw [hfun]

/-- C10: `createCacheKey` does not depend on the enumeration order of the
params object's top-level key/value pairs: any two params objects holding
the same pairs (in any order, with unique keys) produce the identical
string, namely `method:url:` followed by the serialisation of the params
object rebuilt with its keys in sorted order; absent params serialise as
the empty object. -/
theorem createCacheKey_spec {V : Type} (ser : V → String)
    (url method : String) (p₁ p₂ : List (String × V)) (hperm : p₁.Perm p₂)
    (hnodup : (p₁.map Prod.fst).Nodup) :
    createCacheKey ser url method (some p₁)
      = createCacheKey ser url method (some p₂)
    ∧ (∀ p : List (String × V), createCacheKey ser url method (some p)
        = method ++ ":" ++ url ++ ":" ++ stringifyObj ser (sortedParamsOf p))
    ∧ createCacheKey ser url method none
        = method ++ ":" ++ url ++ ":" ++ "\x7b\x7d" := by
  refine ⟨?_, fun p => rfl, rfl⟩
  show method ++ ":" ++ url ++ ":" ++ stringifyObj ser (sortedParamsOf p₁)
      = method ++ ":" ++ url ++ ":" ++ stringifyObj ser (sortedParamsOf p₂)
  rw [sortedParamsOf_eq_of_perm hperm hnodup]

/-- Witness for `createCacheKey_spec` on two enumeration orders of the same
two-key params object. -/
theorem createCacheKey_spec_witness :
    ([("b", 1), ("a", 2)] : List (String × Nat)).Perm [("a", 2), ("b", 1)]
    ∧ (([("b", 1), ("a", 2)] : List (String × Nat)).map Prod.fst).Nodup
    ∧ createCacheKey (fun n : Nat => toString n) "u" "GET"
        (some [("b", 1), ("a", 2)])
      = createCacheKey (fun n : Nat => toString n) "u" "GET"
        (some [("a", 2), ("b", 1)]) :=
  ⟨by decide, by decide,
    (createCacheKey_spec (fun n : Nat => toString n) "u" "GET"
        [("b", 1), ("a", 2)] [("a", 2), ("b", 1)] (by decide) (by decide)).1⟩

/-! ## C4: the middleware chain reads the registered sequence live -/

theorem executeMiddlewares_logs (f : Nat) (ts : List Nat) :
    ∀ (st : ClientState) (index fuel : Nat),
      st.middlewares.drop index = ts.map MWAction.log →
      ts.length + 1 ≤ fuel →
      executeMiddlewares f fuel st index
        = { st with log := st.log ++ (ts ++ [f]) } := by
  induction ts with
  | nil =>
      intro st index fuel hdrop hfuel
      obtain ⟨fl, rfl⟩ : ∃ fl, fuel = fl + 1 := ⟨fuel - 1, by omega⟩
      have hlen : st.middlewares.length ≤ index :=
        List.drop_eq_nil_iff.mp hdrop
      simp only [executeMiddlewares]
      rw [dif_neg (by omega)]
      simp
  | cons t ts ih =>
      intro st index fuel hdrop hfuel
      simp only [List.length_cons] at hfuel
      obtain ⟨fl, rfl⟩ : ∃ fl, fuel = fl + 1 := ⟨fuel - 1, by omega⟩
      have hlt : index < st.middlewares.length := by
        by_contra hge
        rw [List.drop_eq_nil_of_le (by omega)] at hdrop
        simp at hdrop
      have hd := List.drop_eq_getElem_cons hlt
      rw [hdrop] at hd
      simp only [List.map_cons] at hd
      injection hd with h1 h2
      simp only [executeMiddlewares]
      rw [dif_pos hlt]
      have hstep : (st.middlewares.get ⟨index, hlt⟩).effect st
          = { st with log := st.log ++ [t] } := by
        rw [List.get_eq_getElem, ← h1]
        rfl
      rw [hstep]
      rw [ih { st with log := st.log ++ [t] } (index + 1) fl h2.symm
        (by omega)]
      simp [List.append_assoc]

theorem executeMiddlewares_register (f t s : Nat) (posts : List Nat) :
    ∀ (st : ClientState) (index fuel : Nat),
      st.middlewares.drop index
        = MWAction.registerLog t s :: posts.map MWAction.log →
      posts.length + 3 ≤ fuel →
      executeMiddlewares f fuel st index
        = { middlewares := st.middlewares ++ [MWAction.log t],
            log := st.log ++ (s :: (posts ++ [t, f])) } := by
  intro st index fuel hdrop hfuel
  obtain ⟨fl, rfl⟩ : ∃ fl, fuel = fl + 1 := ⟨fuel - 1, by omega⟩
  have hlt : index < st.middlewares.length := by
    by_contra hge
    rw [List.drop_eq_nil_of_le (by omega)] at hdrop
    simp at hdrop
  have hd := List.drop_eq_getElem_cons hlt
  rw [hdrop] at hd
  injection hd with h1 h2
  simp only [executeMiddlewares]
  rw [dif_pos hlt]
  have hstep : (st.middlewares.get ⟨index, hlt⟩).effect st
      = { middlewares := st.middlewares ++ [MWAction.log t],
          log := st.log ++ [s] } := by
    rw [List.get_eq_getElem, ← h1]
    rfl
  rw [hstep]
  have hdrop' : (st.middlewares ++ [MWAction.log t]).drop (index + 1)
      = (posts ++ [t]).map MWAction.log := by
    rw [List.drop_append_of_le_length (by omega), ← h2]
    simp
  rw [executeMiddlewares_logs f (posts ++ [t])
    { middlewares := st.middlewares ++ [MWAction.log t],
      log := st.log ++ [s] } (index + 1) fl hdrop'
    (by simp; omega)]
  simp [List.append_assoc]

theorem executeMiddlewares_pres_register (f t s : Nat) (posts : List Nat) :
    ∀ (pres : List Nat) (st : ClientState) (index fuel : Nat),
      st.middlewares.drop index
        = pres.map MWAction.log
          ++ MWAction.registerLog t s :: posts.map MWAction.log →
      pres.length + posts.length + 3 ≤ fuel →
      executeMiddlewares f fuel st index
        = { middlewares := st.middlewares ++ [MWAction.log t],
            log := st.log ++ (pres ++ s :: (posts ++ [t, f])) } := by
  intro pres
  induction pres with
  | nil =>
      intro st index fuel hdrop hfuel
      have h := executeMiddlewares_register f t s posts st index fuel
        (by simpa using hdrop) (by omega)
      simpa using h
  | cons p pres ih =>
      intro st index fuel hdrop hfuel
      simp only [List.length_cons] at hfuel
      obtain ⟨fl, rfl⟩ : ∃ fl, fuel = fl + 1 := ⟨fuel - 1, by omega⟩
      have hlt : index < st.middlewares.length := by
        by_contra hge
        rw [List.drop_eq_nil_of_le (by omega)] at hdrop
        simp at hdrop
      have hd := List.drop_eq_getElem_cons hlt
      rw [hdrop] at hd
      simp only [List.map_cons, List.cons_append] at hd
      injection hd with h1 h2
      simp only [executeMiddlewares]
      rw [dif_pos hlt]
      have hstep : (st.middlewares.get ⟨index, hlt⟩).effect st
          = { st with log := st.log ++ [p] } := by
        rw [List.get_eq_getElem, ← h1]
        rfl
      rw [hstep]
      rw [ih { st with log := st.log ++ [p] } (index + 1) fl h2.symm
        (by omega)]
      simp [List.append_assoc]

/-- C4 counterexample: a single registered middleware that calls `use()`
(registering a logging middleware with tag 7) before calling `next()`: the
in-flight request also executes the newly-registered middleware — the
observation log is `[1, 7, 99]` (its own tag, the registered middleware's
tag, the terminal transport tag) — whereas a chain captured immutably at
call time would produce `[1, 99]`. -/
theorem middleware_registration_visible_counterexample :
    runRequest 99 ⟨[MWAction.registerLog 7 1], []⟩
      = ⟨[MWAction.registerLog 7 1, MWAction.log 7], [1, 7, 99]⟩
    ∧ (runRequest 99 ⟨[MWAction.registerLog 7 1], []⟩).log ≠ [1, 99] :=
  ⟨by decide, by decide⟩

/-- C4 (amended): `executeMiddlewares` consults the live middleware array at
every step, so a middleware registered via `use()` during an in-flight
request is appended to the array and — its position not yet passed — runs in
that same request: for any chain of logging middlewares with one
registering middleware among them, the run logs the original middlewares in
registration order, then the newly-registered middleware, then the terminal
transport call. -/
theorem middleware_chain_live (pres posts : List Nat) (t s f : Nat) :
    runRequest f
      ⟨pres.map MWAction.log
        ++ MWAction.registerLog t s :: posts.map MWAction.log, []⟩
      = ⟨(pres.map MWAction.log
            ++ MWAction.registerLog t s :: posts.map MWAction.log)
            ++ [MWAction.log t],
          pres ++ s :: (posts ++ [t, f])⟩ := by
  unfold runRequest
  rw [executeMiddlewares_pres_register f t s posts pres _ 0 _ (by simp)
    (by simp only [List.length_append, List.length_map, List.length_cons]
        omega)]
  simp

end NeatSuite
